import Mathlib

/-!
Verification of the product-search-platform repository.

Shallow embedding of the two core modules:
  * the CSV ingestion step (`parseCSV` and its row/field decoders), and
  * the search engine (`scoreField`, `calculateScore`, `getMatches`,
    `applyFilters`, `sortResults`, `searchProducts`).

Modelling conventions:
  * JavaScript strings are `List Char` (`Str`); the Unicode-aware pieces of
    the runtime (`toLowerCase`, whitespace classes) are modelled on the
    ASCII range actually exercised by the data.
  * JavaScript numbers are `ℚ`; the only place the program can meet the
    value `Infinity` is the upper price bound of a filter, modelled as
    `WithTop ℚ`.  `NaN` can only arise from `parseInt` on garbage input and
    is modelled as `0`, which is observationally equivalent for the single
    comparison (`inventory > 0`) the program performs on it.
  * Platform builtins whose exact behaviour the repository does not define
    are parameters of the embedding: `JSON.parse` is a parameter
    `jp : Str → Option Json`, and `new Date(s).getTime()` is a parameter
    `getTime : Str → ℚ`.  `String.prototype.localeCompare` is modelled as
    code-point lexicographic comparison.
  * `Array.prototype.sort` (guaranteed stable by the ECMAScript standard)
    is modelled as insertion sort over the comparator, which is stable.
  * The progress callback of `parseCSV` is modelled by returning the exact
    sequence of calls (percentage and statistics snapshot) as a list.
  * The wall-clock `parseTime` statistic is not modelled (real time).
-/

namespace ProdSearch

/-- JavaScript strings are modelled as lists of characters. -/
abbrev Str := List Char

/-- Shorthand turning a Lean string literal into the model type. -/
def str (s : String) : Str := s.toList

/-- JavaScript whitespace class (the ASCII part of `\s` and `trim`). -/
def isWs (c : Char) : Bool :=
  c = ' ' || c = '\t' || c = '\n' || c = '\r' || c = '\x0b' || c = '\x0c'

/-- Model of `String.prototype.trim`. -/
def trim (s : Str) : Str :=
  ((s.dropWhile isWs).reverse.dropWhile isWs).reverse

/-- Model of `.replace(/\s+/g, ' ')`: collapse every whitespace run to one
space (a whitespace character is dropped while the run continues, and
becomes the single space at the run's last character). -/
def collapseWs : Str → Str
  | [] => []
  | [c] => if isWs c then [' '] else [c]
  | c :: c2 :: rest =>
    if isWs c then
      if isWs c2 then collapseWs (c2 :: rest)
      else ' ' :: collapseWs (c2 :: rest)
    else c :: collapseWs (c2 :: rest)

/-- Model of `normalize` from searchEngine: lowercase, trim, collapse whitespace.
The source's `!text` guard returns `''` for null/undefined/empty input; the
null/undefined cases are handled at the call sites where the TypeScript type
is optional, and for `''` the guard agrees with the computation below. -/
def normalize (s : Str) : Str :=
  collapseWs (trim (s.map Char.toLower))

/-- Character class `[a-z0-9]` used by the fuzzy normal form. -/
def isLowerAlnum (c : Char) : Bool :=
  ('a' ≤ c && c ≤ 'z') || ('0' ≤ c && c ≤ '9')

/-- Model of `normalizeForFuzzy`: normalize, then drop everything outside `[a-z0-9]`. -/
def normalizeForFuzzy (s : Str) : Str :=
  (normalize s).filter isLowerAlnum

/-- Model of `isSubsequence` from searchEngine: greedy two-pointer scan.
Returns false for the empty needle, exactly like the source's `!needle` guard. -/
def isSubsequence (needle haystack : Str) : Bool :=
  if needle = [] then false else subseqAux needle haystack
where
  subseqAux : Str → Str → Bool
    | [], _ => true
    | _ :: _, [] => false
    | n :: ns, h :: hs => if n = h then subseqAux ns hs else subseqAux (n :: ns) hs

/-- Model of `String.prototype.split(/\s+/)`: fragments between whitespace runs
(a leading or trailing run contributes an empty fragment, removed afterwards
by the `filter` in `tokenize`). -/
def splitWsAux (cur : Str) : Str → List Str
  | [] => [cur]
  | [c] => if isWs c then [cur, []] else [cur ++ [c]]
  | c :: c2 :: rest =>
    if isWs c then
      if isWs c2 then splitWsAux cur (c2 :: rest)
      else cur :: splitWsAux [] (c2 :: rest)
    else splitWsAux (cur ++ [c]) (c2 :: rest)

/-- Model of `tokenize`: normalize, split on whitespace runs, drop empty tokens. -/
def tokenize (query : Str) : List Str :=
  (splitWsAux [] (normalize query)).filter (fun t => t.length > 0)

/-- Model of `String.prototype.includes`: substring (infix) test. -/
def jsIncludes (hay needle : Str) : Bool :=
  decide (needle <:+: hay)

/-- Model of `String.prototype.localeCompare`, as code-point lexicographic
comparison returning -1, 0 or 1. -/
def localeCompare : Str → Str → ℚ
  | [], [] => 0
  | [], _ :: _ => -1
  | _ :: _, [] => 1
  | a :: as, b :: bs =>
    if a = b then localeCompare as bs
    else if a < b then -1 else 1

/-- Model of `Math.round` on the nonnegative values it is fed here. -/
def jsRound (q : ℚ) : ℤ := ⌊q + 1 / 2⌋

/-- Decimal digit decoding for the number coercions. -/
def digitVal (c : Char) : ℕ := c.toNat - '0'.toNat

/-- Digits-to-natural accumulator. -/
def digitsToNat : List Char → ℕ → ℕ
  | [], acc => acc
  | c :: cs, acc => digitsToNat cs (acc * 10 + digitVal c)

/-- Parse an unsigned decimal integer (all characters must be digits). -/
def parseNatDigits (s : Str) : Option ℕ :=
  if s ≠ [] ∧ s.all Char.isDigit then some (digitsToNat s 0) else none

/-- Model of the numeric string grammar `[+-]?digits[.digits]?` accepted by
`Number`/`parseFloat` on the inputs this program feeds them.  Exponents, hex
literals and partial-prefix parsing of `parseFloat` are not modelled; no
claim depends on them. -/
def parseDecimal (s : Str) : Option ℚ :=
  match s with
  | '+' :: rest => parseDecimalUnsigned rest
  | '-' :: rest => (parseDecimalUnsigned rest).map (fun q => -q)
  | _ => parseDecimalUnsigned s
where
  parseDecimalUnsigned (t : Str) : Option ℚ :=
    match t.splitOn '.' with
    | [intPart] => (parseNatDigits intPart).map (fun n => (n : ℚ))
    | [intPart, fracPart] =>
      match parseNatDigits intPart, parseNatDigits fracPart with
      | some n, some f => some ((n : ℚ) + (f : ℚ) / (10 : ℚ) ^ fracPart.length)
      | _, _ => none
    | _ => none

/-- Model of `parseInt(s, 10)`: leading-digit prefix after optional sign.
JavaScript yields `NaN` when no digit is present; `NaN` is modelled as `0`,
which agrees with `NaN` on the only comparison (`> 0`) the program makes. -/
def parseIntJS (s : Str) : ℤ :=
  match trim s with
  | '-' :: rest => -(intDigits rest)
  | '+' :: rest => intDigits rest
  | t => intDigits t
where
  intDigits (t : Str) : ℤ := (digitsToNat (t.takeWhile Char.isDigit) 0 : ℤ)

/-! ## Data model (types/product.ts) -/

/-- Model of the price sub-record of a product. -/
structure Price where
  amount : ℚ
  currency : Str
deriving DecidableEq, Repr

/-- Model of ProductImage. -/
structure ProductImage where
  id : Str
  url : Str
  altText : Option Str
  width : Option ℚ
  height : Option ℚ
deriving DecidableEq, Repr

/-- Model of the Product record.  The status field is a string at runtime
(the source merely casts it), and the `compareAtPrice` field is never set by
this repository's parser, so it is omitted. -/
structure Product where
  id : Str
  title : Str
  handle : Str
  vendor : Str
  productType : Str
  description : Str
  bodyHtml : Str
  tags : List Str
  status : Str
  createdAt : Str
  updatedAt : Str
  price : Price
  inventory : ℤ
  images : List ProductImage
  rating : Option ℚ
  reviewCount : Option ℤ
deriving DecidableEq, Repr

/-- Model of SearchResult: a product spread together with the two derived
search attributes. -/
structure SearchResult extends Product where
  relevanceScore : ℚ
  matchedFields : List Str
deriving DecidableEq, Repr

/-- Model of the price interval of SearchFilters.  JavaScript numbers
include `Infinity`, which this platform uses only as an upper price bound;
the upper bound is therefore `WithTop ℚ`. -/
structure PriceRange where
  min : ℚ
  max : WithTop ℚ
deriving DecidableEq

/-- Model of SearchFilters. -/
structure SearchFilters where
  vendors : Option (List Str)
  priceRange : Option PriceRange
  inStock : Option Bool
deriving DecidableEq

/-- Model of SearchOptions.  The limit is only ever supplied as a
nonnegative integer by this repository, so `slice(0, limit)` is `take`. -/
structure SearchOptions where
  query : Str
  filters : Option SearchFilters
  sortBy : Option Str
  limit : Option ℕ

/-! ## JSON values (platform builtin `JSON.parse` is a parameter) -/

/-- Model of a JavaScript JSON value. -/
inductive Json where
  | jnull : Json
  | jbool : Bool → Json
  | jnum : ℚ → Json
  | jstr : Str → Json
  | jarr : List Json → Json
  | jobj : List (Str × Json) → Json

/-- Property access on a decoded JSON value: `v.k` is `undefined` (`none`)
unless `v` is an object carrying the key. -/
def Json.getField : Json → Str → Option Json
  | .jobj fields, k => (fields.filter (fun f => f.1 = k)).getLast?.map (fun f => f.2)
  | _, _ => none

/-- JavaScript truthiness of a JSON value (`NaN` cannot be represented). -/
def Json.truthy : Json → Bool
  | .jnull => false
  | .jbool b => b
  | .jnum q => q ≠ 0
  | .jstr s => s ≠ []
  | .jarr _ => true
  | .jobj _ => true

/-- Model of the coercion `Number(v) || 0` applied to an optional JSON
value (`undefined` and unparsable strings give `NaN`, and `NaN || 0` is 0;
array/object coercion never occurs on this repository's data and is
modelled as the 0 fallback). -/
def numberOrZero : Option Json → ℚ
  | some (.jnum q) => q
  | some (.jstr s) => ((parseDecimal s).getD 0)
  | some (.jbool b) => if b then 1 else 0
  | _ => 0

/-- Model of `parseFloat(v || '0') || undefined` followed by the positivity
guard `x && x > 0 ? x : undefined` used for rating extraction: the result is
present exactly when a positive number is decoded. -/
def positiveNumOf (v : Option Json) : Option ℚ :=
  let q : Option ℚ :=
    match v with
    | some (.jstr s) => if s = [] then some 0 else parseDecimal s
    | some (.jnum q) => some q
    | some (.jbool b) => if b then none else some 0
    | _ => some 0
  match q with
  | some x => if 0 < x then some x else none
  | none => none

/-- Model of the analogous `parseInt(v || '0', 10) || undefined` ladder for
review counts. -/
def positiveIntOf (v : Option Json) : Option ℤ :=
  let n : ℤ :=
    match v with
    | some (.jstr s) => if s = [] then 0 else parseIntJS s
    | some (.jnum q) => ⌊q⌋
    | _ => 0
  if 0 < n then some n else none

/-! ## CSV parser (csvParser module) -/

/-- Model of `safeJsonParse`: the `!json` guard plus the try/catch around
`JSON.parse`, whose behaviour is the parameter `jp`. -/
def safeJsonParse (jp : Str → Option Json) (json : Option Str) : Option Json :=
  match json with
  | none => none
  | some s => if s = [] then none else jp s

/-- Model of `extractPrice`. -/
def extractPrice (jp : Str → Option Json) (priceJson : Str) : Price :=
  let priceRange := safeJsonParse jp (some priceJson)
  match priceRange.bind (fun v => v.getField (str "min_variant_price")) with
  | some mvp =>
    if mvp.truthy then
      { amount := numberOrZero (mvp.getField (str "amount")),
        currency :=
          match mvp.getField (str "currency_code") with
          | some (.jstr s) => if s = [] then str "GBP" else s
          | _ => str "GBP" }
    else { amount := 0, currency := str "GBP" }
  | none => { amount := 0, currency := str "GBP" }

/-- Model of `extractImages`: only a featured image with a truthy `url`
string produces an entry. -/
def extractImages (jp : Str → Option Json) (_imagesJson : Str)
    (featuredJson : Str) : List ProductImage :=
  if featuredJson = [] then []
  else
    match jp featuredJson with
    | some featured =>
      match featured.getField (str "url") with
      | some (.jstr u) =>
        if u ≠ [] then
          [{ id :=
              match featured.getField (str "id") with
              | some (.jstr i) => if i = [] then str "featured" else i
              | _ => str "featured",
             url := u,
             altText :=
              match featured.getField (str "alt_text") with
              | some (.jstr a) => some a
              | _ => none,
             width :=
              match featured.getField (str "width") with
              | some (.jnum w) => some w
              | _ => none,
             height :=
              match featured.getField (str "height") with
              | some (.jnum h) => some h
              | _ => none }]
        else []
      | _ => []
    | none => []

/-- Model of `extractRating`. -/
def extractRating (jp : Str → Option Json) (metafieldsJson : Str) :
    Option ℚ × Option ℤ :=
  if metafieldsJson = [] then (none, none)
  else
    match jp metafieldsJson with
    | none => (none, none)
    | some metafields =>
      (positiveNumOf ((metafields.getField (str "yotpo_reviews_average")).bind
          (fun v => v.getField (str "value"))),
       positiveIntOf ((metafields.getField (str "yotpo_reviews_count")).bind
          (fun v => v.getField (str "value"))))

/-- Model of `parseTags`: split on commas, trim, drop empties. -/
def parseTags (tagsString : Str) : List Str :=
  if tagsString = [] then []
  else ((tagsString.splitOn ',').map trim).filter (fun t => t.length > 0)

/-- Raw row data: the object built by assigning `rawData[header] = value`
in header order (a duplicated header keeps the last assignment). -/
def getRaw (rawData : List (Str × Str)) (key : Str) : Str :=
  (((rawData.filter (fun f => f.1 = key)).getLast?).map (fun f => f.2)).getD []

/-- Model of the JavaScript `s || dflt` idiom on strings. -/
def strOr (s : Str) (dflt : Str) : Str := if s = [] then dflt else s

/-- Model of `parseProduct`.  The source wraps the body in try/catch and
returns null on a thrown exception, but no operation in the body can throw
(every JSON access is already guarded), so the model is total. -/
def parseProduct (jp : Str → Option Json) (raw : List (Str × Str)) : Product :=
  let g := getRaw raw
  let price := extractPrice jp (g (str "PRICE_RANGE_V2"))
  let images := extractImages jp (g (str "IMAGES")) (g (str "FEATURED_IMAGE"))
  let rr := extractRating jp (g (str "METAFIELDS"))
  { id := g (str "ID"),
    title := strOr (g (str "TITLE")) (str "Untitled Product"),
    handle := g (str "HANDLE"),
    vendor := strOr (g (str "VENDOR")) (str "Unknown"),
    productType := g (str "PRODUCT_TYPE"),
    description := g (str "DESCRIPTION"),
    bodyHtml := g (str "BODY_HTML"),
    tags := parseTags (g (str "TAGS")),
    status := strOr (g (str "STATUS")) (str "ACTIVE"),
    createdAt := g (str "CREATED_AT"),
    updatedAt := g (str "UPDATED_AT"),
    price := price,
    inventory := parseIntJS (strOr (g (str "TOTAL_INVENTORY")) (str "0")),
    images := images,
    rating := rr.1,
    reviewCount := rr.2 }

/-- Model of `parseCSVLine`: split a single line on unquoted commas, with
doubled-quote escapes inside quoted stretches; each field is trimmed. -/
def parseCSVLineAux : ℕ → Bool → Str → Str → List Str
  | 0, _, cur, _ => [trim cur]
  | _ + 1, _, cur, [] => [trim cur]
  | fuel + 1, inQuotes, cur, '"' :: rest =>
    if inQuotes then
      match rest with
      | '"' :: rest2 => parseCSVLineAux fuel true (cur ++ ['"']) rest2
      | _ => parseCSVLineAux fuel false cur rest
    else parseCSVLineAux fuel true cur rest
  | fuel + 1, inQuotes, cur, ',' :: rest =>
    if inQuotes then parseCSVLineAux fuel true (cur ++ [',']) rest
    else trim cur :: parseCSVLineAux fuel false [] rest
  | fuel + 1, inQuotes, cur, c :: rest => parseCSVLineAux fuel inQuotes (cur ++ [c]) rest

/-- Parse one CSV line into its fields.  Every loop iteration consumes at
least one character, so a fuel budget of one more than the line length is
never exhausted; the fuel only makes the recursion structural. -/
def parseCSVLine (line : Str) : List Str :=
  parseCSVLineAux (line.length + 1) false [] line

/-- Push the pending line if it is non-blank, as the source's
`if (currentLine.trim()) lines.push(currentLine)`. -/
def pushIf (cur : Str) : List Str := if trim cur ≠ [] then [cur] else []

/-- Model of the quote-aware line splitter at the top of `parseCSV`:
quotes are tracked so newlines inside quoted fields do not terminate a line,
a doubled quote contributes the literal text of the source's two appends,
and `\r\n` counts as a single terminator.  Blank-after-trim lines are
dropped on the spot. -/
def splitLinesAux (inQuotes : Bool) (cur : Str) : Str → List Str
  | [] => pushIf cur
  | '"' :: '"' :: rest => splitLinesAux inQuotes (cur ++ ['"', '"', '"']) rest
  | '"' :: rest => splitLinesAux (!inQuotes) (cur ++ ['"']) rest
  | '\r' :: '\n' :: rest =>
    if inQuotes then splitLinesAux inQuotes (cur ++ ['\r', '\n']) rest
    else pushIf cur ++ splitLinesAux false [] rest
  | '\r' :: rest =>
    if inQuotes then splitLinesAux inQuotes (cur ++ ['\r']) rest
    else pushIf cur ++ splitLinesAux false [] rest
  | '\n' :: rest =>
    if inQuotes then splitLinesAux inQuotes (cur ++ ['\n']) rest
    else pushIf cur ++ splitLinesAux false [] rest
  | c :: rest => splitLinesAux inQuotes (cur ++ [c]) rest

/-- Split the raw CSV text into its non-blank logical lines. -/
def splitLines (csvText : Str) : List Str := splitLinesAux false [] csvText

/-- Parse statistics.  The wall-clock `parseTime` field is real time and is
not modelled. -/
structure ParseStats where
  totalRows : ℕ
  parsedProducts : ℕ
  skippedRows : ℕ
  errors : ℕ
deriving DecidableEq, Repr

/-- One call to the progress observer: the percentage argument together
with the statistics snapshot passed alongside it. -/
structure ProgressEvent where
  percent : ℤ
  totalRows : ℕ
  parsedProducts : ℕ
  skippedRows : ℕ
  errors : ℕ
deriving DecidableEq, Repr

/-- Result of `parseCSV`, with the trace of observer calls made. -/
structure ParseResult where
  products : List Product
  stats : ParseStats
  events : List ProgressEvent
deriving DecidableEq, Repr

/-- Model of the row loop of `parseCSV` (`for i = 1; i < lines.length`):
`i` is the 1-based row index, and an observer call is recorded after every
1000th row using the running statistics.  The source's catch branch (the
`errors` counter) is unreachable because no modelled operation throws, so
`errors` stays 0. -/
def parseLoop (jp : Str → Option Json) (headers : List Str) (totalLines : ℕ) :
    ℕ → List Product → ℕ → List Str → List Product × ℕ × List ProgressEvent
  | _, ps, skipped, [] => (ps, skipped, [])
  | i, ps, skipped, line :: rest =>
    let t := trim line
    let step :=
      if t = [] then (ps, skipped + 1)
      else
        let values := parseCSVLine t
        let rawData := headers.enum.map (fun f => (f.2, values.getD f.1 []))
        let product := parseProduct jp rawData
        if product.status = str "ACTIVE" ∧ 0 < product.price.amount then
          (ps ++ [product], skipped)
        else (ps, skipped + 1)
    let evtList :=
      if i % 1000 = 0 then
        [{ percent := jsRound (((i : ℚ) / (totalLines : ℚ)) * 100),
           totalRows := i, parsedProducts := step.1.length,
           skippedRows := step.2, errors := 0 }]
      else []
    let r := parseLoop jp headers totalLines (i + 1) step.1 step.2 rest
    (r.1, r.2.1, evtList ++ r.2.2)

/-- Model of `parseCSV`.  With fewer than 2 non-blank lines it returns the
empty collection with zeroed statistics before any observer call; otherwise
it parses every data row and ends with the unconditional 100% observer
call. -/
def parseCSV (jp : Str → Option Json) (csvText : Str) : ParseResult :=
  match splitLines csvText with
  | [] => { products := [], stats := ⟨0, 0, 0, 0⟩, events := [] }
  | [_] => { products := [], stats := ⟨0, 0, 0, 0⟩, events := [] }
  | headerLine :: dataLines =>
    let headers := parseCSVLine headerLine
    let totalLines := dataLines.length
    let r := parseLoop jp headers totalLines 1 [] 0 dataLines
    { products := r.1,
      stats := { totalRows := totalLines, parsedProducts := r.1.length,
                 skippedRows := r.2.1, errors := 0 },
      events := r.2.2 ++
        [{ percent := 100, totalRows := totalLines,
           parsedProducts := r.1.length, skippedRows := r.2.1, errors := 0 }] }

/-! ## Search engine (searchEngine module) -/

/-- Field weight for titles. -/
def FIELD_WEIGHTS_title : ℚ := 3

/-- Field weight for vendors. -/
def FIELD_WEIGHTS_vendor : ℚ := 2

/-- Field weight for descriptions. -/
def FIELD_WEIGHTS_description : ℚ := 1

/-- Field weight for tags. -/
def FIELD_WEIGHTS_tags : ℚ := 1 / 2

/-- Minimum aggregate relevance score retained by a query-scoped search. -/
def MINIMUM_SCORE : ℚ := 1 / 10

/-- Model of `scoreField`: per-token strict priority ladder over the
normalized field, additive across tokens.  The fuzzy normal form is only
computed for fields of normalized length at most 120 (otherwise it is the
falsy empty string), and the fuzzy token only for tokens of length at least
3. -/
def scoreField (tokens : List Str) (field : Option Str) (weight : ℚ) : ℚ :=
  if field.getD [] = [] ∨ tokens = [] then 0
  else
    let fieldS := field.getD []
    let normalized := normalize fieldS
    let normalizedFuzzy :=
      if normalized.length ≤ 120 then normalizeForFuzzy fieldS else []
    tokens.foldl (fun score token =>
      let fuzzyToken := if 3 ≤ token.length then token.filter isLowerAlnum else []
      if normalized = token then score + 10 * weight
      else if token <+: normalized then score + 5 * weight
      else if jsIncludes normalized (' ' :: (token ++ [' '])) ||
              decide ((token ++ [' ']) <+: normalized) ||
              decide ((' ' :: token) <:+ normalized) then score + 4 * weight
      else if jsIncludes normalized token then score + 2 * weight
      else if normalizedFuzzy ≠ [] ∧ fuzzyToken ≠ [] ∧
              isSubsequence fuzzyToken normalizedFuzzy then score + 1 * weight
      else score) 0

/-- Model of the regex replace `<[^>]*>` → space, as a state machine: a `<`
with a `>` somewhere after it opens a tag, every character up to the first
following `>` is swallowed, and the closing `>` becomes the single space; a
`<` with no later `>` stays literal (the regex cannot match it). -/
def stripTagsGo : Bool → Str → Str
  | _, [] => []
  | false, '<' :: rest =>
    if '>' ∈ rest then stripTagsGo true rest
    else '<' :: stripTagsGo false rest
  | true, '>' :: rest => ' ' :: stripTagsGo false rest
  | true, _ :: rest => stripTagsGo true rest
  | false, c :: rest => c :: stripTagsGo false rest

/-- Replace every `<[^>]*>` tag by a space. -/
def stripTags (s : Str) : Str := stripTagsGo false s

/-- Model of `stripHtml`: tags to spaces, collapse whitespace, trim. -/
def stripHtml (html : Str) : Str :=
  trim (collapseWs (stripTags html))

/-- Model of the `o || 0` idiom on an optional number (a stored 0 and an
absent value coincide on 0, exactly as in JavaScript). -/
def numOrZero (o : Option ℚ) : ℚ := o.getD 0

/-- Model of `calculateScore`: weighted sum of the four field scores. -/
def calculateScore (p : Product) (tokens : List Str) : ℚ :=
  if tokens = [] then 0
  else
    scoreField tokens (some p.title) FIELD_WEIGHTS_title
      + scoreField tokens (some p.vendor) FIELD_WEIGHTS_vendor
      + scoreField tokens
          (some (stripHtml (strOr p.description (strOr p.bodyHtml []))))
          FIELD_WEIGHTS_description
      + scoreField tokens (some (strOr (List.intercalate [' '] p.tags) []))
          FIELD_WEIGHTS_tags

/-- Model of `getMatches`: a field name is reported when ANY token is a
substring of the field's normalized text (per individual tag for the tags
field), independently of the scoring ladder. -/
def getMatches (p : Product) (tokens : List Str) : List Str :=
  (if tokens.any (fun t => jsIncludes (normalize p.title) t)
   then [str "title"] else []) ++
  (if tokens.any (fun t => jsIncludes (normalize p.vendor) t)
   then [str "vendor"] else []) ++
  (if tokens.any (fun t =>
      jsIncludes (normalize (stripHtml (strOr p.description (strOr p.bodyHtml [])))) t)
   then [str "description"] else []) ++
  (if tokens.any (fun t => p.tags.any (fun tag => jsIncludes (normalize tag) t))
   then [str "tags"] else [])

/-- Model of `applyFilters`: the three conjunctive predicates, each applied
only when its sub-filter is present (and, for vendors, non-empty; for
inStock, true). -/
def applyFilters (products : List Product) (filters : Option SearchFilters) :
    List Product :=
  match filters with
  | none => products
  | some f =>
    let f1 :=
      match f.vendors with
      | some vs =>
        if 0 < vs.length then products.filter (fun p => p.vendor ∈ vs)
        else products
      | none => products
    let f2 :=
      match f.priceRange with
      | some pr =>
        f1.filter (fun p =>
          pr.min ≤ p.price.amount ∧ (p.price.amount : WithTop ℚ) ≤ pr.max)
      | none => f1
    match f.inStock with
    | some b => if b then f2.filter (fun p => 0 < p.inventory) else f2
    | none => f2

/-- Model of `Array.prototype.sort(cmp)`: a stable sort placing `a` before
`b` whenever `cmp a b ≤ 0`, realised as insertion sort (stable, and agrees
with every stable sort on a consistent comparator). -/
def jsSort (cmp : α → α → ℚ) (l : List α) : List α :=
  List.insertionSort (fun a b => cmp a b ≤ 0) l

/-- Model of the `sortBy || dflt` idiom on the optional sort name. -/
def jsOrStr (o : Option Str) (d : Str) : Str :=
  match o with
  | some v => strOr v d
  | none => d

/-- Model of `sortResults`: six named comparators with the recent-desc
comparator as the default branch for unrecognized names. -/
def sortResults (getTime : Str → ℚ) (results : List SearchResult)
    (sortBy : Str) : List SearchResult :=
  if sortBy = str "recent-desc" then
    jsSort (fun a b => getTime b.createdAt - getTime a.createdAt) results
  else if sortBy = str "price-asc" then
    jsSort (fun a b => a.price.amount - b.price.amount) results
  else if sortBy = str "price-desc" then
    jsSort (fun a b => b.price.amount - a.price.amount) results
  else if sortBy = str "rating-desc" then
    jsSort (fun a b => numOrZero b.rating - numOrZero a.rating) results
  else if sortBy = str "vendor-asc" then
    jsSort (fun a b => localeCompare a.vendor b.vendor) results
  else if sortBy = str "vendor-desc" then
    jsSort (fun a b => localeCompare b.vendor a.vendor) results
  else
    jsSort (fun a b => getTime b.createdAt - getTime a.createdAt) results

/-- Model of `sorted.slice(0, limit)` under a present limit. -/
def applyLimit (limit : Option ℕ) (l : List α) : List α :=
  match limit with
  | some n => l.take n
  | none => l

/-- Model of `searchProducts`: filter, then either the zero-score no-query
path (default sort `vendor-asc`) or the scored path (threshold 0.1,
relevance order, optional sort override), with the optional final
truncation. -/
def searchProducts (getTime : Str → ℚ) (products : List Product)
    (options : SearchOptions) : List SearchResult :=
  let filtered := applyFilters products options.filters
  if options.query = [] ∨ trim options.query = [] then
    let results : List SearchResult :=
      filtered.map (fun p =>
        { toProduct := p, relevanceScore := 0, matchedFields := [] })
    let sorted := sortResults getTime results (jsOrStr options.sortBy (str "vendor-asc"))
    applyLimit options.limit sorted
  else
    let tokens := tokenize options.query
    if tokens = [] then []
    else
      let results : List SearchResult :=
        filtered.filterMap (fun p =>
          let score := calculateScore p tokens
          if MINIMUM_SCORE ≤ score then
            some { toProduct := p, relevanceScore := score,
                   matchedFields := getMatches p tokens }
          else none)
      let ranked := jsSort (fun a b => b.relevanceScore - a.relevanceScore) results
      match options.sortBy with
      | none => applyLimit options.limit ranked
      | some s =>
        if s = [] then applyLimit options.limit ranked
        else applyLimit options.limit (sortResults getTime ranked s)

/-! ## Generic facts about the stable sort model -/

/-- The sort returns a permutation of its input. -/
theorem jsSort_perm (cmp : α → α → ℚ) (l : List α) : List.Perm (jsSort cmp l) l :=
  List.perm_insertionSort _ l

/-- Under a total and transitive comparator order, the output of the sort
is pairwise ordered by the comparator. -/
theorem jsSort_pairwise (cmp : α → α → ℚ)
    (htot : ∀ a b, cmp a b ≤ 0 ∨ cmp b a ≤ 0)
    (htr : ∀ a b c, cmp a b ≤ 0 → cmp b c ≤ 0 → cmp a c ≤ 0) (l : List α) :
    (jsSort cmp l).Pairwise (fun a b => cmp a b ≤ 0) := by
  letI : IsTotal α (fun a b => cmp a b ≤ 0) := ⟨htot⟩
  letI : IsTrans α (fun a b => cmp a b ≤ 0) := ⟨fun a b c => htr a b c⟩
  exact List.sorted_insertionSort _ l

/-- Stability of the sort: the elements of any comparator-equivalence class
(any set of elements mutually comparing ≤ 0) appear in the output in their
input order. -/
theorem jsSort_filter_stable (cmp : α → α → ℚ) (p : α → Bool)
    (hp : ∀ x y, p x = true → p y = true → cmp x y ≤ 0) :
    ∀ l : List α, (jsSort cmp l).filter p = l.filter p := by
  intro l
  induction l with
  | nil => rfl
  | cons a l ih =>
    set q : α → Bool := fun b => decide (0 < cmp a b) with hq
    have hsplit : (jsSort cmp l).takeWhile q ++ (jsSort cmp l).dropWhile q =
        jsSort cmp l := List.takeWhile_append_dropWhile q (jsSort cmp l)
    have hrw : jsSort cmp (a :: l) =
        ((jsSort cmp l).takeWhile q) ++ a :: ((jsSort cmp l).dropWhile q) := by
      simpa [jsSort, List.insertionSort, hq] using
        List.orderedInsert_eq_take_drop (fun x y => cmp x y ≤ 0) a (jsSort cmp l)
    by_cases hpa : p a = true
    · have htw : ((jsSort cmp l).takeWhile q).filter p = [] := by
        rw [List.filter_eq_nil_iff]
        intro b hb hpb
        have hqb := List.mem_takeWhile_imp hb
        rw [hq] at hqb
        simp only [decide_eq_true_eq] at hqb
        exact absurd (hp a b hpa hpb) (not_le_of_lt hqb)
      have hdw : ((jsSort cmp l).dropWhile q).filter p = l.filter p := by
        have h2 : ((jsSort cmp l).takeWhile q).filter p ++
            ((jsSort cmp l).dropWhile q).filter p = (jsSort cmp l).filter p := by
          rw [← List.filter_append, hsplit]
        rw [htw, List.nil_append] at h2
        rw [h2, ih]
      rw [hrw, List.filter_append, htw, List.nil_append,
        List.filter_cons_of_pos hpa, hdw, List.filter_cons_of_pos hpa]
    · have hpa' : p a = false := by simpa using hpa
      rw [hrw, List.filter_append, List.filter_cons_of_neg (by simp [hpa']),
        ← List.filter_append, hsplit, ih, List.filter_cons_of_neg (by simp [hpa'])]

/-! ## Facts about the locale comparison model -/

/-- The comparison of a list with itself is 0. -/
theorem localeCompare_self : ∀ s : Str, localeCompare s s = 0
  | [] => rfl
  | c :: rest => by
    simp only [localeCompare, if_pos rfl]
    exact localeCompare_self rest

/-- The comparison is antisymmetric in sign. -/
theorem localeCompare_swap : ∀ a b : Str, localeCompare b a = -localeCompare a b
  | [], [] => by simp [localeCompare]
  | [], _ :: _ => by simp [localeCompare]
  | _ :: _, [] => by simp [localeCompare]
  | a :: as, b :: bs => by
    by_cases hab : a = b
    · subst hab
      simp only [localeCompare, if_pos rfl]
      exact localeCompare_swap as bs
    · have hba : b ≠ a := fun h => hab h.symm
      rcases lt_or_gt_of_ne hab with h | h
      · simp [localeCompare, hab, hba, h, not_lt_of_gt h]
      · simp [localeCompare, hab, hba, h, not_lt_of_gt h]

/-- The comparison against the empty list is never positive. -/
theorem localeCompare_nil_le : ∀ s : Str, localeCompare [] s ≤ 0
  | [] => by norm_num [localeCompare]
  | _ :: _ => by norm_num [localeCompare]

/-- Characterization of a non-positive comparison of two cons cells. -/
theorem localeCompare_cons_le {x y : Char} {xs ys : Str} :
    localeCompare (x :: xs) (y :: ys) ≤ 0 ↔
      (x = y ∧ localeCompare xs ys ≤ 0) ∨ (x ≠ y ∧ x < y) := by
  by_cases hxy : x = y
  · subst hxy
    simp [localeCompare]
  · rcases lt_or_gt_of_ne hxy with h | h
    · simp only [localeCompare, if_neg hxy, if_pos h]
      norm_num [hxy, h]
    · simp only [localeCompare, if_neg hxy, if_neg (not_lt_of_gt h)]
      norm_num [hxy, not_lt_of_gt h]

/-- Totality of the order induced by the comparison. -/
theorem localeCompare_total (a b : Str) :
    localeCompare a b ≤ 0 ∨ localeCompare b a ≤ 0 := by
  rcases le_or_lt (localeCompare a b) 0 with h | h
  · exact Or.inl h
  · right
    rw [localeCompare_swap]
    linarith

/-- Transitivity of the order induced by the comparison. -/
theorem localeCompare_trans :
    ∀ a b c : Str, localeCompare a b ≤ 0 → localeCompare b c ≤ 0 →
      localeCompare a c ≤ 0
  | [], _, c, _, _ => localeCompare_nil_le c
  | _ :: _, [], _, h1, _ => by norm_num [localeCompare] at h1
  | _ :: _, _ :: _, [], _, h2 => by norm_num [localeCompare] at h2
  | x :: xs, y :: ys, z :: zs, h1, h2 => by
    rw [localeCompare_cons_le] at h1 h2 ⊢
    rcases h1 with ⟨hxy, h1'⟩ | ⟨hxy, hlt1⟩
    · rcases h2 with ⟨hyz, h2'⟩ | ⟨hyz, hlt2⟩
      · exact Or.inl ⟨hxy.trans hyz, localeCompare_trans xs ys zs h1' h2'⟩
      · exact Or.inr ⟨by rw [hxy]; exact hyz, by rw [hxy]; exact hlt2⟩
    · rcases h2 with ⟨hyz, h2'⟩ | ⟨hyz, hlt2⟩
      · exact Or.inr ⟨by rw [← hyz]; exact hxy, by rw [← hyz]; exact hlt1⟩
      · exact Or.inr ⟨ne_of_lt (hlt1.trans hlt2), hlt1.trans hlt2⟩

/-! ## Concrete fixtures used by witnesses and counterexamples -/

/-- A minimal well-formed product. -/
def pA : Product :=
  { id := str "A", title := str "ta", handle := [], vendor := str "a",
    productType := [], description := [], bodyHtml := [], tags := [],
    status := str "ACTIVE", createdAt := str "1", updatedAt := [],
    price := { amount := 1, currency := [] }, inventory := 0, images := [],
    rating := none, reviewCount := none }

/-- A second product with a later vendor name and a later creation stamp. -/
def pB : Product := { pA with id := str "B", vendor := str "b", createdAt := str "22" }

/-- A product whose price amount is negative. -/
def pNeg : Product := { pA with price := { amount := -1, currency := [] } }

/-- A date interpretation mapping a timestamp string to its length. -/
def gtLen : Str → ℚ := fun s => (s.length : ℚ)

/-- The filter object of the identity-filter claim: empty vendor set, price
interval from 0 to infinity, inStock false. -/
def fullRangeFilters : SearchFilters :=
  { vendors := some [], priceRange := some { min := 0, max := ⊤ },
    inStock := some false }

/-- A JSON.parse interpretation returning a fixed price-range object. -/
def jpW : Str → Option Json := fun _ => some (Json.jobj
  [(str "min_variant_price", Json.jobj
      [(str "amount", Json.jnum 5), (str "currency_code", Json.jstr (str "GBP"))])])

/-- A two-line CSV input with one active priced row. -/
def textW : Str := str "STATUS,PRICE_RANGE_V2\nACTIVE,x"

/-! ## Claim C6 — filter identity -/

/-- Claim C6, counterexample: the supplied-filters direction of the claim is
false as stated over every product collection — a record with a negative
price amount is removed by the price predicate of
`vendor=∅, price=[0,∞), inStock=false`. -/
theorem C6_counterexample :
    applyFilters [pNeg] (some fullRangeFilters) ≠ [pNeg] := by decide

/-- Claim C6 (amended): applyFilters is the identity when the filters object
is absent, and also when it is `vendor=∅, price=[0,∞), inStock=false`
provided every record's price amount is nonnegative (the counterexample
forces this proviso; parsed collections always satisfy it). -/
theorem C6_filter_identity (ps : List Product) :
    applyFilters ps none = ps ∧
    ((∀ p ∈ ps, 0 ≤ p.price.amount) →
      applyFilters ps (some fullRangeFilters) = ps) := by
  refine ⟨rfl, fun h => ?_⟩
  have e1 : applyFilters ps (some fullRangeFilters)
      = ps.filter (fun p =>
          decide (0 ≤ p.price.amount ∧ (p.price.amount : WithTop ℚ) ≤ ⊤)) := by
    simp [applyFilters, fullRangeFilters]
  rw [e1, List.filter_eq_self.mpr]
  intro p hp
  simp only [decide_eq_true_eq]
  exact ⟨h p hp, le_top⟩

/-- Claim C6, witness: the amended theorem applied to a concrete singleton
collection. -/
theorem C6_witness :
    applyFilters [pA] none = [pA] ∧
    applyFilters [pA] (some fullRangeFilters) = [pA] :=
  ⟨(C6_filter_identity [pA]).1, (C6_filter_identity [pA]).2 (by decide)⟩

/-! ## Claim C4 — the scoring ladder -/

/-- Value of the first matching rule of the ladder for one token, against a
precomputed normalized field `n` and fuzzy form `nf` (the conditions are
verbatim those of `scoreField`). -/
def rungWith (n nf token : Str) : ℕ :=
  if n = token then 10
  else if token <+: n then 5
  else if jsIncludes n (' ' :: (token ++ [' '])) ||
      decide ((token ++ [' ']) <+: n) || decide ((' ' :: token) <:+ n) then 4
  else if jsIncludes n token then 2
  else if nf ≠ [] ∧ (if 3 ≤ token.length then token.filter isLowerAlnum else []) ≠ [] ∧
      isSubsequence (if 3 ≤ token.length then token.filter isLowerAlnum else []) nf then 1
  else 0

/-- Value of the first matching rule of the ladder for one token against a
field text. -/
def tokenRung (f token : Str) : ℕ :=
  rungWith (normalize f)
    (if (normalize f).length ≤ 120 then normalizeForFuzzy f else []) token

/-- The token loop of `scoreField` accumulates exactly the rung values
scaled by the weight. -/
theorem scoreFold (n nf : Str) (w : ℚ) :
    ∀ (ts : List Str) (acc : ℚ),
      List.foldl (fun score token =>
        if n = token then score + 10 * w
        else if token <+: n then score + 5 * w
        else if jsIncludes n (' ' :: (token ++ [' '])) ||
            decide ((token ++ [' ']) <+: n) || decide ((' ' :: token) <:+ n)
          then score + 4 * w
        else if jsIncludes n token then score + 2 * w
        else if nf ≠ [] ∧ (if 3 ≤ token.length then token.filter isLowerAlnum else []) ≠ [] ∧
            isSubsequence (if 3 ≤ token.length then token.filter isLowerAlnum else []) nf
          then score + 1 * w
        else score) acc ts
      = acc + (ts.map (fun t => (rungWith n nf t : ℚ))).sum * w := by
  intro ts
  induction ts with
  | nil => intro acc; simp
  | cons t ts ih =>
    intro acc
    rw [List.foldl_cons, ih]
    simp only [List.map_cons, List.sum_cons]
    rw [rungWith]
    split_ifs <;> push_cast <;> ring

/-- scoreField is the weight-scaled sum of per-token first-matching-rule
values (for a non-empty field text). -/
theorem scoreField_eq_sum (tokens : List Str) (f : Str) (w : ℚ) (hf : f ≠ []) :
    scoreField tokens (some f) w
      = (tokens.map (fun t => (tokenRung f t : ℚ))).sum * w := by
  by_cases ht : tokens = []
  · subst ht
    simp [scoreField]
  · have hguard : ¬((some f : Option Str).getD [] = [] ∨ tokens = []) := by
      simp [hf, ht]
    rw [scoreField, if_neg hguard]
    simp only [Option.getD_some]
    rw [scoreFold]
    simp [tokenRung]

/-- scoreField is nonnegative for nonnegative weights. -/
theorem scoreField_nonneg (tokens : List Str) (field : Option Str) (w : ℚ)
    (hw : 0 ≤ w) : 0 ≤ scoreField tokens field w := by
  rcases field with _ | f
  · simp [scoreField]
  · by_cases hf : f = []
    · simp [scoreField, hf]
    · rw [scoreField_eq_sum _ _ _ hf]
      refine mul_nonneg (List.sum_nonneg ?_) hw
      intro x hx
      simp only [List.mem_map] at hx
      obtain ⟨t, _, rfl⟩ := hx
      positivity

/-- A token whose first matching rule sits higher on the ladder scores
strictly more, for any positive weight. -/
theorem scoreField_rung_strict (w : ℚ) (f t f' t' : Str) (hw : 0 < w)
    (hf : f ≠ []) (hf' : f' ≠ []) (hlt : tokenRung f' t' < tokenRung f t) :
    scoreField [t'] (some f') w < scoreField [t] (some f) w := by
  rw [scoreField_eq_sum _ _ _ hf, scoreField_eq_sum _ _ _ hf']
  simp only [List.map_cons, List.map_nil, List.sum_cons, List.sum_nil, add_zero]
  exact mul_lt_mul_of_pos_right ((Nat.cast_lt (α := ℚ)).mpr hlt) hw

/-- Claim C4, counterexample: with a negative weight the score of a match
is negative, so "the result is non-negative" fails for arbitrary weights. -/
theorem C4_counterexample : scoreField [str "a"] (some (str "a")) (-1) < 0 := by
  rw [scoreField_eq_sum [str "a"] (str "a") (-1) (by decide)]
  have h10 : tokenRung (str "a") (str "a") = 10 := by decide
  simp only [List.map_cons, List.map_nil, List.sum_cons, List.sum_nil, h10]
  norm_num

/-- Claim C4 (amended): scoreField is the sum over tokens of the value of
the first matching rule of the ladder (10/5/4/2/1/0 per rung, scaled by the
weight, with the fuzzy rung gated on token length ≥ 3 and normalized field
length ≤ 120 as encoded in `tokenRung`); the result is non-negative for
every nonnegative weight (the repository only uses positive weights); and
for a fixed positive weight a token matching at a higher rung scores
strictly more than one matching at any lower rung. -/
theorem C4_score_ladder :
    (∀ (tokens : List Str) (f : Str) (w : ℚ), f ≠ [] →
        scoreField tokens (some f) w
          = (tokens.map (fun t => (tokenRung f t : ℚ))).sum * w)
    ∧ (∀ (tokens : List Str) (field : Option Str) (w : ℚ), 0 ≤ w →
        0 ≤ scoreField tokens field w)
    ∧ (∀ (w : ℚ) (f t f' t' : Str), 0 < w → f ≠ [] → f' ≠ [] →
        tokenRung f' t' < tokenRung f t →
        scoreField [t'] (some f') w < scoreField [t] (some f) w) :=
  ⟨scoreField_eq_sum, scoreField_nonneg,
   fun w f t f' t' hw hf hf' hlt => scoreField_rung_strict w f t f' t' hw hf hf' hlt⟩

/-- Claim C4, witness: the three parts of the theorem instantiated at
concrete fields, tokens and the weight 2 (an exact match versus a plain
substring match). -/
theorem C4_witness :
    scoreField [str "ab"] (some (str "ab")) 2
        = ([str "ab"].map (fun t => (tokenRung (str "ab") t : ℚ))).sum * 2
    ∧ 0 ≤ scoreField [str "ab"] (some (str "zz")) 2
    ∧ scoreField [str "ab"] (some (str "zqab")) 2
        < scoreField [str "ab"] (some (str "ab")) 2 :=
  ⟨C4_score_ladder.1 [str "ab"] (str "ab") 2 (by decide),
   C4_score_ladder.2.1 [str "ab"] (some (str "zz")) 2 (by decide),
   C4_score_ladder.2.2 2 (str "ab") (str "ab") (str "zqab") (str "ab")
     (by decide) (by decide) (by decide) (by decide)⟩

/-! ## Claim C7 — sort totality, fallback and stability -/

/-- Ascending numeric-key comparators sort into non-decreasing key order. -/
theorem jsSort_key_asc (key : α → ℚ) (l : List α) :
    (jsSort (fun a b => key a - key b) l).Pairwise (fun a b => key a ≤ key b) := by
  have h := jsSort_pairwise (fun a b => key a - key b)
    (fun a b => by
      rcases le_total (key a) (key b) with h | h
      · exact Or.inl (show key a - key b ≤ 0 by linarith)
      · exact Or.inr (show key b - key a ≤ 0 by linarith))
    (fun a b c h1 h2 => by
      have g1 : key a - key b ≤ 0 := h1
      have g2 : key b - key c ≤ 0 := h2
      show key a - key c ≤ 0
      linarith) l
  exact h.imp (fun h' => by linarith [h'])

/-- Descending numeric-key comparators sort into non-increasing key order. -/
theorem jsSort_key_desc (key : α → ℚ) (l : List α) :
    (jsSort (fun a b => key b - key a) l).Pairwise (fun a b => key b ≤ key a) := by
  have h := jsSort_pairwise (fun a b => key b - key a)
    (fun a b => by
      rcases le_total (key b) (key a) with h | h
      · exact Or.inl (show key b - key a ≤ 0 by linarith)
      · exact Or.inr (show key a - key b ≤ 0 by linarith))
    (fun a b c h1 h2 => by
      have g1 : key b - key a ≤ 0 := h1
      have g2 : key c - key b ≤ 0 := h2
      show key c - key a ≤ 0
      linarith) l
  exact h.imp (fun h' => by linarith [h'])

/-- Stability of ascending numeric-key sorting. -/
theorem jsSort_key_asc_stable (key : α → ℚ) (k : ℚ) (l : List α) :
    (jsSort (fun a b => key a - key b) l).filter (fun x => decide (key x = k))
      = l.filter (fun x => decide (key x = k)) :=
  jsSort_filter_stable _ _ (fun x y hx hy => by
    simp only [decide_eq_true_eq] at hx hy
    rw [hx, hy]
    simp) l

/-- Stability of descending numeric-key sorting. -/
theorem jsSort_key_desc_stable (key : α → ℚ) (k : ℚ) (l : List α) :
    (jsSort (fun a b => key b - key a) l).filter (fun x => decide (key x = k))
      = l.filter (fun x => decide (key x = k)) :=
  jsSort_filter_stable _ _ (fun x y hx hy => by
    simp only [decide_eq_true_eq] at hx hy
    rw [hx, hy]
    simp) l

/-- Ascending locale comparators sort into non-decreasing lexicographic
order. -/
theorem jsSort_lc_asc (f : α → Str) (l : List α) :
    (jsSort (fun a b => localeCompare (f a) (f b)) l).Pairwise
      (fun a b => localeCompare (f a) (f b) ≤ 0) :=
  jsSort_pairwise _ (fun a b => localeCompare_total (f a) (f b))
    (fun a b c h1 h2 => localeCompare_trans (f a) (f b) (f c) h1 h2) l

/-- Descending locale comparators sort into non-increasing lexicographic
order. -/
theorem jsSort_lc_desc (f : α → Str) (l : List α) :
    (jsSort (fun a b => localeCompare (f b) (f a)) l).Pairwise
      (fun a b => localeCompare (f b) (f a) ≤ 0) :=
  jsSort_pairwise (fun a b => localeCompare (f b) (f a))
    (fun a b => localeCompare_total (f b) (f a))
    (fun a b c h1 h2 => localeCompare_trans (f c) (f b) (f a) h2 h1) l

/-- Unfolding of the recent-desc branch. -/
theorem sortResults_eq_recent (gt : Str → ℚ) (l : List SearchResult) :
    sortResults gt l (str "recent-desc")
      = jsSort (fun a b => gt b.createdAt - gt a.createdAt) l := by
  rw [sortResults, if_pos rfl]

/-- Unfolding of the price-asc branch. -/
theorem sortResults_eq_priceAsc (gt : Str → ℚ) (l : List SearchResult) :
    sortResults gt l (str "price-asc")
      = jsSort (fun a b => a.price.amount - b.price.amount) l := by
  rw [sortResults, if_neg (by decide), if_pos rfl]

/-- Unfolding of the price-desc branch. -/
theorem sortResults_eq_priceDesc (gt : Str → ℚ) (l : List SearchResult) :
    sortResults gt l (str "price-desc")
      = jsSort (fun a b => b.price.amount - a.price.amount) l := by
  rw [sortResults, if_neg (by decide), if_neg (by decide), if_pos rfl]

/-- Unfolding of the rating-desc branch. -/
theorem sortResults_eq_ratingDesc (gt : Str → ℚ) (l : List SearchResult) :
    sortResults gt l (str "rating-desc")
      = jsSort (fun a b => numOrZero b.rating - numOrZero a.rating) l := by
  rw [sortResults, if_neg (by decide), if_neg (by decide), if_neg (by decide),
    if_pos rfl]

/-- Unfolding of the vendor-asc branch. -/
theorem sortResults_eq_vendorAsc (gt : Str → ℚ) (l : List SearchResult) :
    sortResults gt l (str "vendor-asc")
      = jsSort (fun a b => localeCompare a.vendor b.vendor) l := by
  rw [sortResults, if_neg (by decide), if_neg (by decide), if_neg (by decide),
    if_neg (by decide), if_pos rfl]

/-- Unfolding of the vendor-desc branch. -/
theorem sortResults_eq_vendorDesc (gt : Str → ℚ) (l : List SearchResult) :
    sortResults gt l (str "vendor-desc")
      = jsSort (fun a b => localeCompare b.vendor a.vendor) l := by
  rw [sortResults, if_neg (by decide), if_neg (by decide), if_neg (by decide),
    if_neg (by decide), if_neg (by decide), if_pos rfl]

/-- An unrecognized sort name takes the default branch, which is the
recent-desc comparator. -/
theorem sortResults_unknown (gt : Str → ℚ) (l : List SearchResult) (s : Str)
    (h : s ∉ [str "recent-desc", str "price-asc", str "price-desc",
        str "rating-desc", str "vendor-asc", str "vendor-desc"]) :
    sortResults gt l s = sortResults gt l (str "recent-desc") := by
  simp only [List.mem_cons, List.not_mem_nil, or_false, not_or] at h
  obtain ⟨h1, h2, h3, h4, h5, h6⟩ := h
  rw [sortResults, if_neg h1, if_neg h2, if_neg h3, if_neg h4, if_neg h5,
    if_neg h6, sortResults_eq_recent]

/-- Claim C7: every sort name returns a permutation of the input; each of
the six named sorts is totally ordered by its defined key; an unrecognized
name produces the recent-desc order; and each sort is stable (records with
equal keys keep their input order, stated as filter-invariance per key
value). -/
theorem C7_sort_totality (getTime : Str → ℚ) (l : List SearchResult) :
    (∀ s, List.Perm (sortResults getTime l s) l)
    ∧ (sortResults getTime l (str "price-asc")).Pairwise
        (fun a b => a.price.amount ≤ b.price.amount)
    ∧ (sortResults getTime l (str "price-desc")).Pairwise
        (fun a b => b.price.amount ≤ a.price.amount)
    ∧ (sortResults getTime l (str "rating-desc")).Pairwise
        (fun a b => numOrZero b.rating ≤ numOrZero a.rating)
    ∧ (sortResults getTime l (str "vendor-asc")).Pairwise
        (fun a b => localeCompare a.vendor b.vendor ≤ 0)
    ∧ (sortResults getTime l (str "vendor-desc")).Pairwise
        (fun a b => localeCompare b.vendor a.vendor ≤ 0)
    ∧ (sortResults getTime l (str "recent-desc")).Pairwise
        (fun a b => getTime b.createdAt ≤ getTime a.createdAt)
    ∧ (∀ s, s ∉ [str "recent-desc", str "price-asc", str "price-desc",
          str "rating-desc", str "vendor-asc", str "vendor-desc"] →
        sortResults getTime l s = sortResults getTime l (str "recent-desc"))
    ∧ (∀ k : ℚ, (sortResults getTime l (str "price-asc")).filter
          (fun r => decide (r.price.amount = k))
        = l.filter (fun r => decide (r.price.amount = k)))
    ∧ (∀ k : ℚ, (sortResults getTime l (str "price-desc")).filter
          (fun r => decide (r.price.amount = k))
        = l.filter (fun r => decide (r.price.amount = k)))
    ∧ (∀ k : ℚ, (sortResults getTime l (str "rating-desc")).filter
          (fun r => decide (numOrZero r.rating = k))
        = l.filter (fun r => decide (numOrZero r.rating = k)))
    ∧ (∀ v : Str, (sortResults getTime l (str "vendor-asc")).filter
          (fun r => decide (r.vendor = v))
        = l.filter (fun r => decide (r.vendor = v)))
    ∧ (∀ v : Str, (sortResults getTime l (str "vendor-desc")).filter
          (fun r => decide (r.vendor = v))
        = l.filter (fun r => decide (r.vendor = v)))
    ∧ (∀ k : ℚ, (sortResults getTime l (str "recent-desc")).filter
          (fun r => decide (getTime r.createdAt = k))
        = l.filter (fun r => decide (getTime r.createdAt = k))) := by
  refine ⟨?_, ?_, ?_, ?_, ?_, ?_, ?_, ?_, ?_, ?_, ?_, ?_, ?_, ?_⟩
  · intro s
    rw [sortResults]
    split_ifs <;> exact jsSort_perm _ _
  · rw [sortResults_eq_priceAsc]
    exact jsSort_key_asc (fun r => r.price.amount) l
  · rw [sortResults_eq_priceDesc]
    exact jsSort_key_desc (fun r => r.price.amount) l
  · rw [sortResults_eq_ratingDesc]
    exact jsSort_key_desc (fun r => numOrZero r.rating) l
  · rw [sortResults_eq_vendorAsc]
    exact jsSort_lc_asc (fun r => r.vendor) l
  · rw [sortResults_eq_vendorDesc]
    exact jsSort_lc_desc (fun r => r.vendor) l
  · rw [sortResults_eq_recent]
    exact jsSort_key_desc (fun r => getTime r.createdAt) l
  · exact fun s hs => sortResults_unknown getTime l s hs
  · intro k
    rw [sortResults_eq_priceAsc]
    exact jsSort_key_asc_stable (fun r => r.price.amount) k l
  · intro k
    rw [sortResults_eq_priceDesc]
    exact jsSort_key_desc_stable (fun r => r.price.amount) k l
  · intro k
    rw [sortResults_eq_ratingDesc]
    exact jsSort_key_desc_stable (fun r => numOrZero r.rating) k l
  · intro v
    rw [sortResults_eq_vendorAsc]
    exact jsSort_filter_stable _ _ (fun x y hx hy => by
      simp only [decide_eq_true_eq] at hx hy
      rw [hx, hy, localeCompare_self]) l
  · intro v
    rw [sortResults_eq_vendorDesc]
    exact jsSort_filter_stable _ _ (fun x y hx hy => by
      simp only [decide_eq_true_eq] at hx hy
      rw [hx, hy, localeCompare_self]) l
  · intro k
    rw [sortResults_eq_recent]
    exact jsSort_key_desc_stable (fun r => getTime r.createdAt) k l

/-- Claim C7, witness: the unknown-name fallback applied at the concrete
name "bogus", plus the permutation part at price-asc. -/
theorem C7_witness :
    sortResults gtLen [] (str "bogus") = sortResults gtLen [] (str "recent-desc")
    ∧ List.Perm (sortResults gtLen [] (str "price-asc")) [] :=
  ⟨(C7_sort_totality gtLen []).2.2.2.2.2.2.2.1 (str "bogus") (by decide),
   (C7_sort_totality gtLen []).1 (str "price-asc")⟩

/-! ## Claim C2 — default order of a no-query search -/

/-- The zero-score search result wrapping `pA`. -/
def r0A : SearchResult := { toProduct := pA, relevanceScore := 0, matchedFields := [] }

/-- The zero-score search result wrapping `pB`. -/
def r0B : SearchResult := { toProduct := pB, relevanceScore := 0, matchedFields := [] }

/-- Claim C2, counterexample: with an empty query and no explicit sort, the
engine does not return the recent-desc order — product B is newer but has
the later vendor name, and the output puts A (vendor order) first. -/
theorem C2_counterexample :
    searchProducts gtLen [pB, pA]
        { query := [], filters := none, sortBy := none, limit := none }
      ≠ sortResults gtLen
          ((applyFilters [pB, pA] none).map
            (fun p => { toProduct := p, relevanceScore := 0, matchedFields := [] }))
          (str "recent-desc") := by
  have e1 : gtLen r0A.createdAt = 1 := by decide
  have e2 : gtLen r0B.createdAt = 2 := by decide
  have hM : ((applyFilters [pB, pA] none).map
      (fun p => ({ toProduct := p, relevanceScore := 0,
                   matchedFields := [] } : SearchResult))) = [r0B, r0A] := rfl
  have hL : searchProducts gtLen [pB, pA]
      { query := [], filters := none, sortBy := none, limit := none }
      = [r0A, r0B] := by decide
  have hR : sortResults gtLen [r0B, r0A] (str "recent-desc") = [r0B, r0A] := by
    rw [sortResults_eq_recent]
    simp only [jsSort, List.insertionSort, List.orderedInsert]
    rw [if_pos (by rw [e1, e2]; norm_num)]
  rw [hL, hM, hR]
  decide

/-- Claim C2 (amended): a search with an empty or whitespace-only query and
no explicit sort returns the filtered records as zero-score results sorted
by the default `vendor-asc` (vendor name ascending), truncated to the limit
when one is given — not by `recent-desc` as the claim stated. -/
theorem C2_empty_query_default (getTime : Str → ℚ) (ps : List Product)
    (filters : Option SearchFilters) (limit : Option ℕ) (q : Str)
    (hq : q = [] ∨ trim q = []) :
    searchProducts getTime ps
        { query := q, filters := filters, sortBy := none, limit := limit }
      = applyLimit limit (sortResults getTime
          ((applyFilters ps filters).map
            (fun p => { toProduct := p, relevanceScore := 0, matchedFields := [] }))
          (str "vendor-asc"))
    ∧ (searchProducts getTime ps
        { query := q, filters := filters, sortBy := none, limit := limit }).Pairwise
        (fun a b => localeCompare a.vendor b.vendor ≤ 0)
    ∧ (limit = none →
        List.Perm
          (searchProducts getTime ps
            { query := q, filters := filters, sortBy := none, limit := limit })
          ((applyFilters ps filters).map
            (fun p => { toProduct := p, relevanceScore := 0, matchedFields := [] }))) := by
  have h1 : searchProducts getTime ps
      { query := q, filters := filters, sortBy := none, limit := limit }
      = applyLimit limit (sortResults getTime
          ((applyFilters ps filters).map
            (fun p => { toProduct := p, relevanceScore := 0, matchedFields := [] }))
          (str "vendor-asc")) := by
    rw [searchProducts, if_pos hq]
    rfl
  refine ⟨h1, ?_, ?_⟩
  · rw [h1]
    have hs : (sortResults getTime
        ((applyFilters ps filters).map
          (fun p => ({ toProduct := p, relevanceScore := 0,
                       matchedFields := [] } : SearchResult)))
        (str "vendor-asc")).Pairwise
        (fun a b => localeCompare a.vendor b.vendor ≤ 0) := by
      rw [sortResults_eq_vendorAsc]
      exact jsSort_lc_asc (fun r : SearchResult => r.vendor) _
    cases limit with
    | none => exact hs
    | some n => exact hs.sublist (List.take_sublist n _)
  · intro hl
    subst hl
    rw [h1]
    show List.Perm (sortResults getTime _ (str "vendor-asc")) _
    rw [sortResults_eq_vendorAsc]
    exact jsSort_perm _ _

/-- Claim C2, witness: the amended theorem at a concrete singleton
collection with an empty query. -/
theorem C2_witness :
    searchProducts gtLen [pA]
        { query := [], filters := none, sortBy := none, limit := none }
      = applyLimit none (sortResults gtLen
          ((applyFilters [pA] none).map
            (fun p => { toProduct := p, relevanceScore := 0, matchedFields := [] }))
          (str "vendor-asc")) :=
  (C2_empty_query_default gtLen [pA] none none [] (Or.inl rfl)).1

/-! ## Claim C9 — matched-field transparency set -/

/-- Membership in a conditional singleton. -/
theorem mem_ite_singleton {c : Prop} [Decidable c] {x f : Str} :
    f ∈ (if c then [x] else []) ↔ c ∧ f = x := by
  split_ifs with h <;> simp [h]

/-- A product with an empty title (used to exhibit a matched field with
zero score contribution). -/
def pEmptyTitle : Product := { pA with title := [] }

/-- Claim C9: getMatches returns exactly the field names whose normalized
text (individual normalized tags for the tags field, description falling
back to the HTML body with tags stripped) contains some token as a
substring, and a field can be reported as matched while its scoring-ladder
contribution is zero. -/
theorem C9_getMatches_spec :
    (∀ (p : Product) (tokens : List Str), tokens ≠ [] → ∀ f : Str,
      (f ∈ getMatches p tokens ↔
        ((f = str "title" ∧ ∃ t ∈ tokens, t <:+: normalize p.title) ∨
         (f = str "vendor" ∧ ∃ t ∈ tokens, t <:+: normalize p.vendor) ∨
         (f = str "description" ∧ ∃ t ∈ tokens,
            t <:+: normalize (stripHtml (strOr p.description (strOr p.bodyHtml [])))) ∨
         (f = str "tags" ∧ ∃ t ∈ tokens, ∃ tag ∈ p.tags, t <:+: normalize tag))))
    ∧ ((str "title") ∈ getMatches pEmptyTitle [[]]
        ∧ scoreField [[]] (some pEmptyTitle.title) FIELD_WEIGHTS_title = 0) := by
  constructor
  · intro p tokens _ f
    simp only [getMatches, List.mem_append, mem_ite_singleton, List.any_eq_true,
      jsIncludes, decide_eq_true_eq]
    constructor
    · rintro (((⟨hc, rfl⟩ | ⟨hc, rfl⟩) | ⟨hc, rfl⟩) | ⟨hc, rfl⟩)
      · exact Or.inl ⟨rfl, hc⟩
      · exact Or.inr (Or.inl ⟨rfl, hc⟩)
      · exact Or.inr (Or.inr (Or.inl ⟨rfl, hc⟩))
      · exact Or.inr (Or.inr (Or.inr ⟨rfl, hc⟩))
    · rintro (⟨rfl, hc⟩ | ⟨rfl, hc⟩ | ⟨rfl, hc⟩ | ⟨rfl, hc⟩)
      · exact Or.inl (Or.inl (Or.inl ⟨hc, rfl⟩))
      · exact Or.inl (Or.inl (Or.inr ⟨hc, rfl⟩))
      · exact Or.inl (Or.inr ⟨hc, rfl⟩)
      · exact Or.inr ⟨hc, rfl⟩
  · constructor
    · decide
    · decide

/-- Claim C9, witness: the characterization applied to a concrete record
and token list. -/
theorem C9_witness :
    (str "title") ∈ getMatches pA [str "ta"] ↔
      ((str "title" = str "title" ∧ ∃ t ∈ [str "ta"], t <:+: normalize pA.title) ∨
       (str "title" = str "vendor" ∧ ∃ t ∈ [str "ta"], t <:+: normalize pA.vendor) ∨
       (str "title" = str "description" ∧ ∃ t ∈ [str "ta"],
          t <:+: normalize (stripHtml (strOr pA.description (strOr pA.bodyHtml [])))) ∨
       (str "title" = str "tags" ∧ ∃ t ∈ [str "ta"], ∃ tag ∈ pA.tags,
          t <:+: normalize tag)) :=
  C9_getMatches_spec.1 pA [str "ta"] (by decide) (str "title")

/-! ## Claim C3 — retention invariant of the parser -/

/-- Every product emitted by the row loop either was already accumulated or
passed the retention check (active status and positive price). -/
theorem parseLoop_mem (jp : Str → Option Json) (headers : List Str) (n : ℕ) :
    ∀ (ls : List Str) (i : ℕ) (ps : List Product) (sk : ℕ) (p : Product),
      p ∈ (parseLoop jp headers n i ps sk ls).1 →
      p ∈ ps ∨ (p.status = str "ACTIVE" ∧ 0 < p.price.amount) := by
  intro ls
  induction ls with
  | nil =>
    intro i ps sk p h
    simp only [parseLoop] at h
    exact Or.inl h
  | cons line rest ih =>
    intro i ps sk p h
    simp only [parseLoop] at h
    by_cases hb : trim line = []
    · rw [if_pos hb] at h
      exact ih _ _ _ p h
    · rw [if_neg hb] at h
      by_cases h2 : (parseProduct jp
          (headers.enum.map (fun f => (f.2, (parseCSVLine (trim line)).getD f.1 [])))).status
            = str "ACTIVE"
          ∧ 0 < (parseProduct jp
          (headers.enum.map (fun f => (f.2, (parseCSVLine (trim line)).getD f.1 [])))).price.amount
      · rw [if_pos h2] at h
        rcases ih _ _ _ p h with hm | hp
        · rcases List.mem_append.mp hm with hm' | hm'
          · exact Or.inl hm'
          · rcases List.mem_singleton.mp hm' with rfl
            exact Or.inr h2
        · exact Or.inr hp
      · rw [if_neg h2] at h
        exact ih _ _ _ p h

/-- Claim C3: every record in a parsed collection has status ACTIVE and a
strictly positive price amount, for every input text (and every behaviour
of the JSON.parse builtin). -/
theorem C3_retention (jp : Str → Option Json) (text : Str) (p : Product)
    (hp : p ∈ (parseCSV jp text).products) :
    p.status = str "ACTIVE" ∧ 0 < p.price.amount := by
  rcases hsplit : splitLines text with _ | ⟨l0, ls⟩
  · simp only [parseCSV, hsplit] at hp
    exact absurd hp (List.not_mem_nil p)
  · rcases ls with _ | ⟨l1, ls'⟩
    · simp only [parseCSV, hsplit] at hp
      exact absurd hp (List.not_mem_nil p)
    · simp only [parseCSV, hsplit] at hp
      rcases parseLoop_mem jp (parseCSVLine l0) (l1 :: ls').length (l1 :: ls')
          1 [] 0 p hp with h | h
      · exact absurd h (List.not_mem_nil p)
      · exact h

/-- The single product parsed from the witness input. -/
def prodW : Product :=
  { id := [], title := str "Untitled Product", handle := [],
    vendor := str "Unknown", productType := [], description := [],
    bodyHtml := [], tags := [], status := str "ACTIVE", createdAt := [],
    updatedAt := [], price := { amount := 5, currency := str "GBP" },
    inventory := 0, images := [], rating := none, reviewCount := none }

/-- Claim C3, witness: the invariant applied to the concrete record parsed
from a two-line input. -/
theorem C3_witness : prodW.status = str "ACTIVE" ∧ 0 < prodW.price.amount :=
  C3_retention jpW textW prodW (by decide)

/-! ## Claim C10 — statistics bookkeeping -/

/-- The row loop accounts every row either as a parsed product or as a
skipped row. -/
theorem parseLoop_counts (jp : Str → Option Json) (headers : List Str) (n : ℕ) :
    ∀ (ls : List Str) (i : ℕ) (ps : List Product) (sk : ℕ),
      (parseLoop jp headers n i ps sk ls).1.length
          + (parseLoop jp headers n i ps sk ls).2.1
        = ps.length + sk + ls.length := by
  intro ls
  induction ls with
  | nil =>
    intro i ps sk
    simp [parseLoop]
  | cons line rest ih =>
    intro i ps sk
    simp only [parseLoop]
    rw [ih]
    by_cases hb : trim line = []
    · rw [if_pos hb]
      simp only [List.length_cons]
      omega
    · rw [if_neg hb]
      split_ifs with h2
      · simp only [List.length_append, List.length_cons, List.length_nil]
        omega
      · simp only [List.length_cons]
        omega

/-- Claim C10: the final statistics satisfy parsedProducts = number of
returned records, parsedProducts + skippedRows = totalRows, and
errors ≤ skippedRows, for every input text. -/
theorem C10_statistics (jp : Str → Option Json) (text : Str) :
    (parseCSV jp text).stats.parsedProducts = (parseCSV jp text).products.length
    ∧ (parseCSV jp text).stats.parsedProducts + (parseCSV jp text).stats.skippedRows
        = (parseCSV jp text).stats.totalRows
    ∧ (parseCSV jp text).stats.errors ≤ (parseCSV jp text).stats.skippedRows := by
  rcases hsplit : splitLines text with _ | ⟨l0, ls⟩
  · simp [parseCSV, hsplit]
  · rcases ls with _ | ⟨l1, ls'⟩
    · simp [parseCSV, hsplit]
    · simp only [parseCSV, hsplit]
      refine ⟨trivial, ?_, Nat.zero_le _⟩
      have h := parseLoop_counts jp (parseCSVLine l0) (l1 :: ls').length
        (l1 :: ls') 1 [] 0
      simpa using h

/-! ## Claim C1 — behaviour on fewer than 2 non-blank lines -/

/-- Claim C1, counterexample: on the empty input — fewer than 2 non-blank
lines — parseCSV does not propagate an error and does not fail to produce a
collection; it returns a perfectly ordinary result holding the empty
collection and zeroed statistics (the embedding is a total function because
the source function throws nowhere). -/
theorem C1_counterexample :
    parseCSV (fun _ => none) []
      = { products := [], stats := ⟨0, 0, 0, 0⟩, events := [] }
    ∧ (splitLines ([] : Str)).length < 2 := by
  constructor
  · decide
  · decide

/-- Claim C1 (amended): parseCSV never fails; when the input has fewer than
2 non-blank lines it returns the empty collection with zeroed statistics
and makes no observer call (the "no data" outcome), and for every other
input it returns a collection and statistics (row-level decoding failures
never abort the parse). -/
theorem C1_no_fatal_error (jp : Str → Option Json) (text : Str)
    (h : (splitLines text).length < 2) :
    parseCSV jp text
      = { products := [], stats := ⟨0, 0, 0, 0⟩, events := [] } := by
  rcases hsplit : splitLines text with _ | ⟨l0, ls⟩
  · simp [parseCSV, hsplit]
  · rcases ls with _ | ⟨l1, ls'⟩
    · simp [parseCSV, hsplit]
    · exfalso
      rw [hsplit] at h
      simp only [List.length_cons] at h
      omega

/-- Claim C1, witness: the amended theorem applied to a one-line input. -/
theorem C1_witness :
    parseCSV jpW (str "ID,TITLE")
      = { products := [], stats := ⟨0, 0, 0, 0⟩, events := [] } :=
  C1_no_fatal_error jpW (str "ID,TITLE") (by decide)

/-! ## Claim C5 — minimum-score threshold -/

/-- Every branch of the sort engine permutes its input. -/
theorem sortResults_perm (gt : Str → ℚ) (l : List SearchResult) (s : Str) :
    List.Perm (sortResults gt l s) l := by
  rw [sortResults]
  split_ifs <;> exact jsSort_perm _ _

/-- A string trims to empty exactly when all its characters are whitespace. -/
theorem trim_eq_nil (s : Str) : trim s = [] ↔ ∀ c ∈ s, isWs c = true := by
  constructor
  · intro h c hc
    have h1 : (s.dropWhile isWs).reverse.dropWhile isWs = [] := by
      have := congrArg List.reverse h
      simpa [trim] using this
    have h2 : ∀ c ∈ s.dropWhile isWs, isWs c = true := by
      intro c hc'
      exact List.dropWhile_eq_nil_iff.mp h1 c (List.mem_reverse.mpr hc')
    have hsplit := List.takeWhile_append_dropWhile (p := isWs) (l := s)
    rw [← hsplit] at hc
    rcases List.mem_append.mp hc with h' | h'
    · exact List.mem_takeWhile_imp h'
    · exact h2 c h'
  · intro h
    have h1 : s.dropWhile isWs = [] := List.dropWhile_eq_nil_iff.mpr h
    simp [trim, h1]

/-- Lowercasing fixes every whitespace character. -/
theorem toLower_ws (c : Char) (h : isWs c = true) : Char.toLower c = c := by
  simp only [isWs, Bool.or_eq_true, decide_eq_true_eq] at h
  rcases h with ((((h | h) | h) | h) | h) | h <;> subst h <;> decide

/-- A query producing a non-empty token sequence is neither empty nor
whitespace-only. -/
theorem tokenize_ne_imp (q : Str) (ht : tokenize q ≠ []) :
    ¬(q = [] ∨ trim q = []) := by
  rintro (rfl | hw)
  · exact ht rfl
  · apply ht
    have hall : ∀ c ∈ q, isWs c = true := (trim_eq_nil q).mp hw
    have hmap : q.map Char.toLower = q := by
      rw [show q.map Char.toLower = q.map id from
        List.map_congr_left (fun a ha => toLower_ws a (hall a ha))]
      exact List.map_id q
    have hnorm : normalize q = [] := by
      rw [normalize, hmap, hw]
      rfl
    rw [tokenize, hnorm]
    rfl

/-- The thresholded scored-result list a query-scoped search builds before
ranking (a named form of the loop in `searchProducts`, for statements). -/
def scoredResults (ps : List Product) (opts : SearchOptions) : List SearchResult :=
  (applyFilters ps opts.filters).filterMap (fun p =>
    let score := calculateScore p (tokenize opts.query)
    if MINIMUM_SCORE ≤ score then
      some { toProduct := p, relevanceScore := score,
             matchedFields := getMatches p (tokenize opts.query) }
    else none)

/-- The relevance comparator (score descending), named for statements. -/
def cmpRel : SearchResult → SearchResult → ℚ :=
  fun a b => b.relevanceScore - a.relevanceScore

/-- Membership in scoredResults. -/
theorem mem_scoredResults (ps : List Product) (opts : SearchOptions)
    (r : SearchResult) :
    r ∈ scoredResults ps opts ↔
      ∃ p ∈ applyFilters ps opts.filters,
        MINIMUM_SCORE ≤ calculateScore p (tokenize opts.query) ∧
        ({ toProduct := p,
           relevanceScore := calculateScore p (tokenize opts.query),
           matchedFields := getMatches p (tokenize opts.query) } : SearchResult) = r := by
  rw [scoredResults, List.mem_filterMap]
  constructor
  · rintro ⟨p, hp, hf⟩
    by_cases hs : MINIMUM_SCORE ≤ calculateScore p (tokenize opts.query)
    · simp only [if_pos hs] at hf
      exact ⟨p, hp, hs, Option.some.inj hf⟩
    · simp only [if_neg hs] at hf
      cases hf
  · rintro ⟨p, hp, hs, hr⟩
    exact ⟨p, hp, by simp only [if_pos hs, hr]⟩

/-- A query-scoped search output is the limited version of the ranked
scored results, further re-sorted when an explicit non-empty sort name is
supplied. -/
theorem searchProducts_query_cases (getTime : Str → ℚ) (ps : List Product)
    (opts : SearchOptions) (hq : ¬(opts.query = [] ∨ trim opts.query = []))
    (ht : ¬tokenize opts.query = []) :
    searchProducts getTime ps opts
        = applyLimit opts.limit (jsSort cmpRel (scoredResults ps opts))
    ∨ ∃ s, opts.sortBy = some s ∧ ¬s = [] ∧
        searchProducts getTime ps opts
          = applyLimit opts.limit
              (sortResults getTime (jsSort cmpRel (scoredResults ps opts)) s) := by
  rw [searchProducts, if_neg hq, if_neg ht]
  rcases hsb : opts.sortBy with _ | s
  · exact Or.inl rfl
  · by_cases hse : s = []
    · left
      dsimp only
      rw [if_pos hse]
      rfl
    · right
      refine ⟨s, rfl, hse, ?_⟩
      dsimp only
      rw [if_neg hse]
      rfl

/-- Membership is preserved downward through the optional truncation. -/
theorem mem_applyLimit {lim : Option ℕ} {l : List α} {r : α}
    (h : r ∈ applyLimit lim l) : r ∈ l := by
  cases lim with
  | none => exact h
  | some n => exact (List.take_sublist n l).subset h

/-- Claim C5 (amended): in a query-scoped search no returned result has
relevance score below the 0.1 threshold, and — when no limit is supplied —
a filtered record appears in the result list exactly when its aggregate
score reaches the threshold.  (With a limit, the truncation can also remove
records whose score reaches the threshold, which is the counterexample.) -/
theorem C5_threshold (getTime : Str → ℚ) (ps : List Product)
    (opts : SearchOptions) (ht : tokenize opts.query ≠ []) :
    (∀ r ∈ searchProducts getTime ps opts, MINIMUM_SCORE ≤ r.relevanceScore)
    ∧ (opts.limit = none →
        ∀ p ∈ applyFilters ps opts.filters,
          ((∃ r ∈ searchProducts getTime ps opts, r.toProduct = p) ↔
            MINIMUM_SCORE ≤ calculateScore p (tokenize opts.query))) := by
  have hq : ¬(opts.query = [] ∨ trim opts.query = []) := tokenize_ne_imp _ ht
  have hcases := searchProducts_query_cases getTime ps opts hq ht
  have hmemR : ∀ r, r ∈ searchProducts getTime ps opts → r ∈ scoredResults ps opts := by
    intro r hr
    rcases hcases with h | ⟨s, _, _, h⟩
    · rw [h] at hr
      exact (jsSort_perm _ _).subset (mem_applyLimit hr)
    · rw [h] at hr
      exact (jsSort_perm _ _).subset
        ((sortResults_perm _ _ _).subset (mem_applyLimit hr))
  constructor
  · intro r hr
    rcases (mem_scoredResults ps opts r).mp (hmemR r hr) with ⟨p, _, hs, hrr⟩
    rw [← hrr]
    exact hs
  · intro hl p hp
    constructor
    · rintro ⟨r, hr, hrp⟩
      rcases (mem_scoredResults ps opts r).mp (hmemR r hr) with ⟨p2, hp2, hs, hrr⟩
      have hpp : p2 = p := by rw [← hrp, ← hrr]
      rw [← hpp]
      exact hs
    · intro hs
      have hmem : SearchResult.mk p (calculateScore p (tokenize opts.query))
            (getMatches p (tokenize opts.query))
          ∈ scoredResults ps opts :=
        (mem_scoredResults ps opts _).mpr ⟨p, hp, hs, rfl⟩
      refine ⟨SearchResult.mk p (calculateScore p (tokenize opts.query))
        (getMatches p (tokenize opts.query)), ?_, rfl⟩
      rcases hcases with h | ⟨s, _, _, h⟩
      · rw [h, hl]
        exact (jsSort_perm _ _).mem_iff.mpr hmem
      · rw [h, hl]
        exact (sortResults_perm _ _ _).mem_iff.mpr
          ((jsSort_perm _ _).mem_iff.mpr hmem)

/-- A product whose title exactly matches the witness query. -/
def pT1 : Product := { pA with id := str "1", title := str "alpha" }

/-- The witness search options: query-scoped, no filters, sort or limit. -/
def optW : SearchOptions :=
  { query := str "alpha", filters := none, sortBy := none, limit := none }

/-- The aggregate score of the witness product under the witness query. -/
theorem calculateScore_pT1 : calculateScore pT1 (tokenize (str "alpha")) = 30 := by
  have hts : tokenize (str "alpha") = [str "alpha"] := by decide
  rw [hts, calculateScore, if_neg (by decide)]
  rw [scoreField_eq_sum _ _ _ (by decide : pT1.title ≠ [])]
  rw [scoreField_eq_sum _ _ _ (by decide : pT1.vendor ≠ [])]
  have hd : scoreField [str "alpha"]
      (some (stripHtml (strOr pT1.description (strOr pT1.bodyHtml []))))
      FIELD_WEIGHTS_description = 0 := by
    rw [scoreField, if_pos (Or.inl (by decide))]
  have htg : scoreField [str "alpha"]
      (some (strOr (List.intercalate [' '] pT1.tags) []))
      FIELD_WEIGHTS_tags = 0 := by
    rw [scoreField, if_pos (Or.inl (by decide))]
  rw [hd, htg]
  have r1 : tokenRung pT1.title (str "alpha") = 10 := by decide
  have r2 : tokenRung pT1.vendor (str "alpha") = 0 := by decide
  simp only [List.map_cons, List.map_nil, List.sum_cons, List.sum_nil, r1, r2,
    FIELD_WEIGHTS_title, FIELD_WEIGHTS_vendor]
  norm_num

/-- Claim C5, counterexample: with a limit of 0, the filtered record pT1
scores 30 ≥ 0.1 yet does not appear in the returned result list, refuting
the stated "if and only if". -/
theorem C5_counterexample :
    pT1 ∈ applyFilters [pT1] none
    ∧ MINIMUM_SCORE ≤ calculateScore pT1 (tokenize (str "alpha"))
    ∧ searchProducts gtLen [pT1]
        { query := str "alpha", filters := none, sortBy := none,
          limit := some 0 } = [] := by
  refine ⟨by decide, ?_, ?_⟩
  · rw [calculateScore_pT1, MINIMUM_SCORE]
    norm_num
  · rw [searchProducts, if_neg (by decide)]
    dsimp only
    split_ifs <;> rfl

/-- Claim C5, witness: the amended theorem applied to a concrete singleton
collection with the query "alpha" and no limit. -/
theorem C5_witness :
    (∀ r ∈ searchProducts gtLen [pT1] optW, MINIMUM_SCORE ≤ r.relevanceScore)
    ∧ (∀ p ∈ applyFilters [pT1] optW.filters,
        ((∃ r ∈ searchProducts gtLen [pT1] optW, r.toProduct = p) ↔
          MINIMUM_SCORE ≤ calculateScore p (tokenize optW.query))) :=
  ⟨(C5_threshold gtLen [pT1] optW (by decide)).1,
   (C5_threshold gtLen [pT1] optW (by decide)).2 rfl⟩

/-! ## Claim C8 — progress reporting -/

/-- Rounding is monotone. -/
theorem jsRound_mono {p q : ℚ} (h : p ≤ q) : jsRound p ≤ jsRound q :=
  Int.floor_le_floor (by linarith)

/-- Rounding 100 gives 100. -/
theorem jsRound_100 : jsRound (100 : ℚ) = 100 := by
  rw [jsRound, Int.floor_eq_iff]
  constructor <;> norm_num

/-- The percentage of a row index within the total is monotone. -/
theorem pct_mono (n : ℕ) (hn : 0 < n) {a b : ℕ} (hab : a ≤ b) :
    jsRound (((a : ℚ) / (n : ℚ)) * 100) ≤ jsRound (((b : ℚ) / (n : ℚ)) * 100) := by
  apply jsRound_mono
  have hn' : (0 : ℚ) < (n : ℚ) := by exact_mod_cast hn
  have : (a : ℚ) / (n : ℚ) ≤ (b : ℚ) / (n : ℚ) := by
    gcongr
  linarith

/-- The percentage of a row index within the total is at most 100. -/
theorem pct_le_100 (n j : ℕ) (hn : 0 < n) (hj : j ≤ n) :
    jsRound (((j : ℚ) / (n : ℚ)) * 100) ≤ 100 := by
  rw [← jsRound_100]
  apply jsRound_mono
  have hn' : (0 : ℚ) < (n : ℚ) := by exact_mod_cast hn
  have h1 : (j : ℚ) / (n : ℚ) ≤ 1 := by
    rw [div_le_one hn']
    exact_mod_cast hj
  linarith

/-- The interval list is strictly increasing. -/
theorem pairwise_lt_rangeAux : ∀ (n s : ℕ), (List.range' s n).Pairwise (· < ·)
  | 0, _ => by simp
  | n + 1, s => by
    rw [List.range'_succ]
    refine List.Pairwise.cons ?_ (pairwise_lt_rangeAux n (s + 1))
    intro m hm
    have := (List.mem_range'_1.mp hm).1
    omega

/-- The observer calls recorded by the row loop carry exactly the
percentages and row counts of the row indices divisible by 1000, in row
order. -/
theorem parseLoop_events (jp : Str → Option Json) (headers : List Str) (n : ℕ) :
    ∀ (ls : List Str) (i : ℕ) (ps : List Product) (sk : ℕ),
      ((parseLoop jp headers n i ps sk ls).2.2).map (fun e => (e.percent, e.totalRows))
        = ((List.range' i ls.length).filter (fun j => j % 1000 = 0)).map
            (fun j : ℕ => ((jsRound (((j : ℚ) / (n : ℚ)) * 100) : ℤ), j)) := by
  intro ls
  induction ls with
  | nil =>
    intro i ps sk
    simp [parseLoop]
  | cons line rest ih =>
    intro i ps sk
    simp only [parseLoop, List.length_cons, List.range'_succ, List.filter_cons]
    rw [List.map_append, ih]
    by_cases hm : i % 1000 = 0
    · simp [hm]
    · simp [hm]

/-- Claim C8 (amended): for every input with at least 2 non-blank lines,
the recorded percentages are non-decreasing across observer calls, the
intermediate calls happen exactly at every 1000th row (in row order,
reporting the row count), and the final call — always present — reports
100% with the final cumulative statistics.  (The claim's "exactly one
callback reports 100%" is refuted by the counterexample: with a multiple of
1000 data rows the last intermediate call also rounds to 100%.) -/
theorem C8_progress (jp : Str → Option Json) (text : Str)
    (h2 : 2 ≤ (splitLines text).length) :
    ((parseCSV jp text).events.map (fun e => e.percent)).Pairwise (· ≤ ·)
    ∧ ((parseCSV jp text).events.dropLast.map (fun e => e.totalRows)
        = (List.range' 1 (parseCSV jp text).stats.totalRows).filter
            (fun j => j % 1000 = 0))
    ∧ ((parseCSV jp text).events.getLast?
        = some { percent := 100,
                 totalRows := (parseCSV jp text).stats.totalRows,
                 parsedProducts := (parseCSV jp text).stats.parsedProducts,
                 skippedRows := (parseCSV jp text).stats.skippedRows,
                 errors := (parseCSV jp text).stats.errors }) := by
  rcases hsplit : splitLines text with _ | ⟨l0, ls⟩
  · rw [hsplit] at h2
    simp at h2
  · rcases ls with _ | ⟨l1, ls'⟩
    · rw [hsplit] at h2
      simp at h2
    · simp only [parseCSV, hsplit]
      have hn : 0 < (l1 :: ls').length := by simp
      have hA := parseLoop_events jp (parseCSVLine l0) (l1 :: ls').length
        (l1 :: ls') 1 [] 0
      have hperc : ((parseLoop jp (parseCSVLine l0) (l1 :: ls').length 1 [] 0
            (l1 :: ls')).2.2).map (fun e => e.percent)
          = ((List.range' 1 (l1 :: ls').length).filter (fun j => j % 1000 = 0)).map
              (fun j : ℕ => jsRound (((j : ℚ) / ((l1 :: ls').length : ℚ)) * 100)) := by
        have h := congrArg (List.map Prod.fst) hA
        rw [List.map_map, List.map_map] at h
        exact h
      have htr : ((parseLoop jp (parseCSVLine l0) (l1 :: ls').length 1 [] 0
            (l1 :: ls')).2.2).map (fun e => e.totalRows)
          = (List.range' 1 (l1 :: ls').length).filter (fun j => j % 1000 = 0) := by
        have e1 : List.map (fun e : ProgressEvent => e.totalRows)
            ((parseLoop jp (parseCSVLine l0) (l1 :: ls').length 1 [] 0 (l1 :: ls')).2.2)
            = List.map Prod.snd (List.map (fun e => (e.percent, e.totalRows))
                ((parseLoop jp (parseCSVLine l0) (l1 :: ls').length 1 [] 0 (l1 :: ls')).2.2)) := by
          rw [List.map_map]
          rfl
        rw [e1, hA, List.map_map]
        exact List.map_id _
      refine ⟨?_, ?_, ?_⟩
      · rw [List.map_append, hperc]
        apply List.pairwise_append.mpr
        refine ⟨?_, by simp, ?_⟩
        · apply List.Pairwise.map _ ?_ ((pairwise_lt_rangeAux _ 1).filter _)
          intro a b hab
          exact pct_mono _ hn (Nat.le_of_lt hab)
        · intro x hx y hy
          simp only [List.map_cons, List.map_nil, List.mem_singleton] at hy
          subst hy
          rcases List.mem_map.mp hx with ⟨j, hj, rfl⟩
          have hjr := (List.mem_range'_1.mp (List.mem_of_mem_filter hj)).2
          exact pct_le_100 _ j hn (by omega)
      · rw [List.dropLast_concat, htr]
      · rw [List.getLast?_concat]

/-- Claim C8, witness: the amended theorem applied to a concrete two-line
input. -/
theorem C8_witness :
    ((parseCSV jpW textW).events.map (fun e => e.percent)).Pairwise (· ≤ ·)
    ∧ ((parseCSV jpW textW).events.dropLast.map (fun e => e.totalRows)
        = (List.range' 1 (parseCSV jpW textW).stats.totalRows).filter
            (fun j => j % 1000 = 0))
    ∧ ((parseCSV jpW textW).events.getLast?
        = some { percent := 100,
                 totalRows := (parseCSV jpW textW).stats.totalRows,
                 parsedProducts := (parseCSV jpW textW).stats.parsedProducts,
                 skippedRows := (parseCSV jpW textW).stats.skippedRows,
                 errors := (parseCSV jpW textW).stats.errors }) :=
  C8_progress jpW textW (by decide)

/-- A CSV input with a header line and exactly 1000 one-character data
rows. -/
def bigText : Str := 'h' :: '\n' :: (List.replicate 1000 ['r', '\n']).flatten

/-- Splitting the repeated data rows yields one line per row. -/
theorem splitRep : ∀ k : ℕ,
    splitLinesAux false [] ((List.replicate k ['r', '\n']).flatten)
      = List.replicate k ['r']
  | 0 => rfl
  | k + 1 => by
    have hstep : (List.replicate (k + 1) ['r', '\n']).flatten
        = 'r' :: '\n' :: (List.replicate k ['r', '\n']).flatten := rfl
    rw [hstep]
    rw [show ∀ rest : Str, splitLinesAux false [] ('r' :: '\n' :: rest)
        = ['r'] :: splitLinesAux false [] rest from fun rest => rfl]
    rw [splitRep k]
    rfl

set_option maxRecDepth 40000 in
/-- The big input splits into its header line plus 1000 data lines. -/
theorem bigText_split : splitLines bigText = ['h'] :: List.replicate 1000 ['r'] := by
  show splitLinesAux false []
    ('h' :: '\n' :: (List.replicate 1000 ['r', '\n']).flatten) = _
  rw [show ∀ rest : Str, splitLinesAux false [] ('h' :: '\n' :: rest)
      = ['h'] :: splitLinesAux false [] rest from fun rest => rfl]
  rw [splitRep 1000]

set_option maxRecDepth 40000 in
/-- Claim C8, counterexample: on an input with exactly 1000 data rows (at
least 2 non-blank lines), two observer calls report 100% — the intermediate
call at row 1000 rounds to 100 and the unconditional final call reports 100
again — so "exactly one callback reports 100%" is false. -/
theorem C8_counterexample :
    2 ≤ (splitLines bigText).length
    ∧ (((parseCSV (fun _ => none) bigText).events.map
          (fun e => e.percent)).count 100 = 2) := by
  have hs2 : splitLines bigText = ['h'] :: ['r'] :: List.replicate 999 ['r'] := by
    rw [bigText_split]
    rfl
  constructor
  · rw [hs2]
    simp only [List.length_cons, List.length_replicate]
    omega
  · simp only [parseCSV, hs2, List.length_cons, List.length_replicate]
    have hA := parseLoop_events (fun _ => none) (parseCSVLine ['h']) 1000
      (['r'] :: List.replicate 999 ['r']) 1 [] 0
    have hlen : (['r'] :: List.replicate 999 ['r'] : List Str).length = 1000 := by
      simp
    have hfilter : (List.range' 1 1000).filter (fun j => j % 1000 = 0) = [1000] := by
      decide
    have hperc : ((parseLoop (fun _ => none) (parseCSVLine ['h']) 1000 1 [] 0
          (['r'] :: List.replicate 999 ['r'])).2.2).map (fun e => e.percent)
        = [(100 : ℤ)] := by
      have h := congrArg (List.map Prod.fst) hA
      rw [List.map_map, List.map_map, hlen, hfilter] at h
      have h100 : ((1000 : ℕ) : ℚ) / ((1000 : ℕ) : ℚ) * 100 = 100 := by norm_num
      rw [show List.map
          (Prod.fst ∘ fun j : ℕ => ((jsRound (((j : ℚ) / ((1000 : ℕ) : ℚ)) * 100) : ℤ), j))
          [1000] = [jsRound (((1000 : ℕ) : ℚ) / ((1000 : ℕ) : ℚ) * 100)] from rfl,
        h100, jsRound_100] at h
      exact h
    rw [List.map_append, List.count_append, hperc]
    rfl

end ProdSearch
